import Mathlib

/-!
Verification of the RecogFace (FaceIDHub) repository against its
natural-language specification.

The definitions below are a shallow embedding of the JavaScript sources:
`backend/server.js` (Express routes over the SQLite `persons` and
`sessions` tables), the `EnrollFace` component (frame capture, the 70%
sufficiency check and descriptor averaging), and the `LiveRecognition`
component (the per-person candidate loop of `detectAndRecognize`).
JavaScript numbers are modelled as rationals; the stream of
`Math.random()` draws is passed in explicitly as a list.  The
`EncodingCrypto` section models the encrypted-gallery primitive that the
repository documents (Fernet encryption in `utils.py`) but whose source
file is not present; it is modelled from the specification.
-/

namespace Server

/-- Row of the `persons` table: `id TEXT PRIMARY KEY, name, encoding_hash,
created_at` (server.js, table schema). -/
structure Person where
  id : String
  name : String
  encodingHash : String
  createdAt : ℕ
deriving DecidableEq, Repr

/-- Row of the `sessions` table: `id, person_id, action, timestamp`
(server.js, table schema); `person_id` is nullable. -/
structure Session where
  id : String
  personId : Option String
  action : String
  timestamp : ℕ
deriving DecidableEq, Repr

/-- The SQLite database state: the two tables, in insertion order. -/
structure DB where
  persons : List Person
  sessions : List Session
deriving DecidableEq, Repr

/-- HTTP responses the modelled routes can produce. -/
inductive Response where
  | ok (personId : String)
  | success
  | badRequest
  | notFound
deriving DecidableEq, Repr

/-- Action string logged by the enrollment route. -/
def actionEnroll : String := "enroll"

/-- Action string logged by the delete route. -/
def actionDelete : String := "delete"

/-- POST /api/enroll (server.js): destructures `name` and `encodingHash`
from the body; `if (!name || !encodingHash)` responds 400 (JavaScript
falsiness: an absent field or the empty string); otherwise inserts the
person with the freshly generated `pid` and logs an `enroll` session
row, answering `{success, personId}`.  The uuid values `pid`, `sid` and
the timestamp `now` are supplied by the caller. -/
def enrollRoute (st : DB) (nameField hashField : Option String)
    (pid sid : String) (now : ℕ) : DB × Response :=
  match nameField, hashField with
  | some n, some h =>
    if n == "" || h == "" then (st, .badRequest)
    else
      ({ persons := st.persons ++ [⟨pid, n, h, now⟩],
         sessions := st.sessions ++ [⟨sid, some pid, actionEnroll, now⟩] },
       .ok pid)
  | _, _ => (st, .badRequest)

/-- DELETE /api/persons/:id (server.js): runs `DELETE FROM persons WHERE
id = ?`; if at least one row was deleted it logs a `delete` session row
and answers success, otherwise it answers 404. -/
def deletePersonRoute (st : DB) (pid sid : String) (now : ℕ) : DB × Response :=
  let remaining := st.persons.filter (fun p => !(p.id == pid))
  if st.persons.any (fun p => p.id == pid) then
    ({ persons := remaining,
       sessions := st.sessions ++ [⟨sid, some pid, actionDelete, now⟩] },
     .success)
  else
    ({ persons := remaining, sessions := st.sessions }, .notFound)

/-- The `LEFT JOIN persons p ON s.person_id = p.id` of the logs query:
the person name, when the session row has a matching person. -/
def lookupName (persons : List Person) (pid : Option String) : Option String :=
  pid.bind (fun i => (persons.find? (fun p => p.id == i)).map (fun p => p.name))

/-- One row returned by GET /api/logs: `s.timestamp, s.action, p.name`. -/
structure LogRow where
  timestamp : ℕ
  action : String
  personName : Option String
deriving DecidableEq, Repr

/-- The `ORDER BY s.timestamp DESC` comparison on session rows. -/
def byTimestampDesc (a b : Session) : Prop := b.timestamp ≤ a.timestamp

instance : DecidableRel byTimestampDesc := fun a b => Nat.decLe b.timestamp a.timestamp

instance : IsTotal Session byTimestampDesc := ⟨fun a b => Nat.le_total b.timestamp a.timestamp⟩

instance : IsTrans Session byTimestampDesc := ⟨fun _ _ _ hab hbc => le_trans hbc hab⟩

/-- GET /api/logs (server.js): with no database it answers `{logs: []}`;
otherwise it returns the sessions joined with person names, ordered by
timestamp descending, `LIMIT 100`. -/
def logsRoute (dbOpt : Option DB) : List LogRow :=
  match dbOpt with
  | none => []
  | some st =>
    ((List.insertionSort byTimestampDesc st.sessions).map
      (fun s => ⟨s.timestamp, s.action, lookupName st.persons s.personId⟩)).take 100

end Server

namespace EnrollFace

/-- `const targetFrames = 15` in `EnrollFace.handleEnroll`. -/
def targetFrames : ℕ := 15

/-- The accumulation loop of `handleEnroll`: starting from
`new Float32Array(128)` (all zeroes), add each collected descriptor
coordinate-wise (`avgDescriptor[j] += descriptor[j]` for `j < 128`). -/
def sumDescriptors (samples : List (List ℚ)) : List ℚ :=
  samples.foldl (fun acc d => List.zipWith (fun a b => a + b) acc d) (List.replicate 128 0)

/-- The averaged face descriptor of `handleEnroll`: the coordinate sums
divided by `collectedFaces.length`. -/
def avgDescriptor (samples : List (List ℚ)) : List ℚ :=
  (sumDescriptors samples).map (fun x => x / (samples.length : ℚ))

/-- Enrollment failure: the `Insufficient face data captured` early
return of `handleEnroll` (the spec's `InsufficientSamples`). -/
inductive EnrollError where
  | insufficientSamples
deriving DecidableEq, Repr

/-- The usable samples of one enrollment run: each of the `targetFrames`
capture attempts either yielded a descriptor or `null`; the collected
list keeps the descriptors in order. -/
def collectedOf (attempts : List (Option (List ℚ))) : List (List ℚ) :=
  attempts.filterMap id

/-- `EnrollFace.handleEnroll` after the capture loop: if
`collectedFaces.length < targetFrames * 0.7` it stops with the
insufficient-data status and performs no server call; otherwise it
averages the descriptors, hashes the average and posts
`{name, encodingHash}` to /api/enroll.  The digest function is passed
in abstractly (no claim depends on its value). -/
def enrollSession (hash : List ℚ → String) (attempts : List (Option (List ℚ)))
    (st : Server.DB) (pid sid : String) (now : ℕ) (nm : String) :
    Server.DB × Option EnrollError :=
  if ((collectedOf attempts).length : ℚ) < (targetFrames : ℚ) * (7 / 10) then
    (st, some .insufficientSamples)
  else
    ((Server.enrollRoute st (some nm)
        (some (hash (avgDescriptor (collectedOf attempts)))) pid sid now).1,
     none)

end EnrollFace

namespace LiveRecognition

/-- A row of the GET /api/persons answer consumed by `LiveRecognition`
(only `name` is read by the matching loop). -/
structure PersonRow where
  id : String
  name : String
deriving DecidableEq, Repr

/-- The running best candidate of `detectAndRecognize`, initialised to
`{ name: 'Unknown', confidence: 0 }`. -/
structure BestMatch where
  name : String
  confidence : ℚ
deriving DecidableEq, Repr

/-- One iteration of the per-person loop of `detectAndRecognize`
(ConsentModal.jsx, `LiveRecognition`): `distance` is the `Math.random()`
draw for this person, `confidence = Math.max(0, 1 - distance)`, and the
best candidate is replaced when
`confidence > bestMatch.confidence && confidence > 0.6`. -/
def recognizeStep (best : BestMatch) (pd : PersonRow × ℚ) : BestMatch :=
  if best.confidence < max 0 (1 - pd.2) ∧ (3 : ℚ) / 5 < max 0 (1 - pd.2) then
    ⟨pd.1.name, max 0 (1 - pd.2)⟩
  else best

/-- The full candidate scan of `detectAndRecognize` for one detection:
fold the loop over the persons list, pairing each person with its
simulated random distance draw. -/
def bestMatchFor (persons : List PersonRow) (ds : List ℚ) : BestMatch :=
  (persons.zip ds).foldl recognizeStep ⟨"Unknown", 0⟩

end LiveRecognition

namespace EncodingCrypto

/-- Modelled from the spec: the repository README documents encrypted
gallery storage (`utils.py` — Fernet authenticated encryption), but that
source file is absent from the repository snapshot.  Byte encryption
under key `k`: an additive shift modulo 256. -/
def encByte (k x : ℕ) : ℕ := (x + k) % 256

/-- Modelled from the spec: inverse of `encByte` on bytes. -/
def decByte (k y : ℕ) : ℕ := (y + (256 - k % 256)) % 256

/-- Failure of authenticated decryption (the spec's
`AuthenticationError`). -/
inductive CryptoError where
  | authenticationError
deriving DecidableEq, Repr

/-- Modelled from the spec: `seal(plaintext, key)` — authenticated
symmetric encryption.  The ciphertext is a one-byte authentication tag
(a keyed checksum of the encrypted payload) followed by the encrypted
payload, so that any tampering is detected at `open` time. -/
def sealBytes (b : List ℕ) (k : ℕ) : List ℕ :=
  ((b.map (encByte k)).sum + k) % 256 :: b.map (encByte k)

/-- Modelled from the spec: `open(ciphertext, key)` — verify the
authentication tag under the supplied key, then decrypt; a failed
verification is an `AuthenticationError`, never garbage data.  (`open`
is a reserved word in Lean, hence the name.) -/
def openBytes (ct : List ℕ) (k : ℕ) : Except CryptoError (List ℕ) :=
  match ct with
  | [] => .error .authenticationError
  | t :: c =>
    if (c.sum + k) % 256 = t then .ok (c.map (decByte k))
    else .error .authenticationError

end EncodingCrypto

namespace EncodingCrypto

/-- Decryption inverts encryption on bytes. -/
lemma decByte_encByte (k : ℕ) {x : ℕ} (hx : x < 256) : decByte k (encByte k x) = x := by
  unfold decByte encByte
  omega

/-- Every byte of an encrypted payload is below 256. -/
lemma mem_map_encByte_lt (k : ℕ) (b : List ℕ) : ∀ y ∈ b.map (encByte k), y < 256 := by
  intro y hy
  rcases List.mem_map.mp hy with ⟨x, _, rfl⟩
  exact Nat.mod_lt _ (by norm_num)

/-- Replacing one element shifts the sum by the difference. -/
lemma sum_set_add_getD (c : List ℕ) (i v : ℕ) (h : i < c.length) :
    (c.set i v).sum + c.getD i 0 = c.sum + v := by
  induction c generalizing i with
  | nil => simp at h
  | cons a t ih =>
    cases i with
    | zero => simp [List.getD_cons_zero]; omega
    | succ j =>
      have hj : j < t.length := by simpa using h
      have := ih j hj
      simp only [List.set_cons_succ, List.sum_cons, List.getD_cons_succ]
      omega

end EncodingCrypto

/-- C7: matching against an empty gallery: the per-person loop of
`detectAndRecognize` never runs, so the decision stays at the Unknown
verdict with confidence 0, for every stream of simulated distance
draws; the function is total, so no exception arises. -/
theorem recognition_empty_gallery_unknown (ds : List ℚ) :
    LiveRecognition.bestMatchFor [] ds = ⟨"Unknown", 0⟩ := by
  simp [LiveRecognition.bestMatchFor]

/-- C1: evaluating `detectAndRecognize` at the failing input — a gallery
holding the enrolled person and a simulated random draw of 1/2: the code
reports Unknown with confidence 0 (the draw gives confidence 1/2, below
the 0.6 gate), instead of the claimed Match with distance 0 and
confidence equal to the identity's quality score; the stored encodings
are never consulted. -/
theorem recognition_simulated_draw_unknown :
    LiveRecognition.bestMatchFor [⟨"p1", "Alice"⟩] [(1 / 2 : ℚ)] = ⟨"Unknown", 0⟩ := by
  norm_num [LiveRecognition.bestMatchFor, LiveRecognition.recognizeStep]

/-- C2: evaluating `detectAndRecognize` at the failing input — a gallery
holding one person and a favourable simulated draw of 1/10: the code
finalizes a Match (confidence 9/10 exceeds the 0.6 gate) without ever
computing a cosine similarity, contradicting the claimed dual-metric
verification. -/
theorem recognition_match_without_cosine_check :
    LiveRecognition.bestMatchFor [⟨"p1", "Alice"⟩] [(1 / 10 : ℚ)] = ⟨"Alice", 9 / 10⟩ := by
  norm_num [LiveRecognition.bestMatchFor, LiveRecognition.recognizeStep]

/-- C3: the authenticated encryption round-trip — `open (seal b k) k`
recovers `b` for every byte payload; `open` under a different key of the
scheme's key space fails with `AuthenticationError`; and mutating any
single byte of the sealed ciphertext makes `open` fail with
`AuthenticationError` rather than return data. -/
theorem encodingCrypto_roundtrip_and_auth :
    (∀ (b : List ℕ) (k : ℕ), (∀ x ∈ b, x < 256) →
      EncodingCrypto.openBytes (EncodingCrypto.sealBytes b k) k = .ok b)
    ∧ (∀ (b : List ℕ) (k k' : ℕ), k < 256 → k' < 256 → k ≠ k' →
      EncodingCrypto.openBytes (EncodingCrypto.sealBytes b k) k' =
        .error .authenticationError)
    ∧ (∀ (b : List ℕ) (k i v : ℕ), i < (EncodingCrypto.sealBytes b k).length →
      v < 256 → v ≠ (EncodingCrypto.sealBytes b k).getD i 0 →
      EncodingCrypto.openBytes ((EncodingCrypto.sealBytes b k).set i v) k =
        .error .authenticationError) := by
  refine ⟨?_, ?_, ?_⟩
  · intro b k hb
    simp only [EncodingCrypto.sealBytes, EncodingCrypto.openBytes, if_pos rfl,
      List.map_map]
    have hcongr : ∀ x ∈ b, (EncodingCrypto.decByte k ∘ EncodingCrypto.encByte k) x = x :=
      fun x hx => EncodingCrypto.decByte_encByte k (hb x hx)
    simp [List.map_congr_left hcongr]
  · intro b k k' hk hk' hne
    simp only [EncodingCrypto.sealBytes, EncodingCrypto.openBytes]
    rw [if_neg]
    omega
  · intro b k i v hi hv hvne
    cases i with
    | zero =>
      simp only [EncodingCrypto.sealBytes, List.getD_cons_zero] at hvne
      simp only [EncodingCrypto.sealBytes, List.set_cons_zero,
        EncodingCrypto.openBytes]
      rw [if_neg (fun h => hvne h.symm)]
    | succ j =>
      have hj : j < (b.map (EncodingCrypto.encByte k)).length := by
        simpa [EncodingCrypto.sealBytes] using hi
      have hgetD : (EncodingCrypto.sealBytes b k).getD (j + 1) 0 =
          (b.map (EncodingCrypto.encByte k)).getD j 0 := by
        simp [EncodingCrypto.sealBytes, List.getD_cons_succ]
      rw [hgetD] at hvne
      have hsum := EncodingCrypto.sum_set_add_getD (b.map (EncodingCrypto.encByte k)) j v hj
      have hmem : (b.map (EncodingCrypto.encByte k)).getD j 0 ∈ b.map (EncodingCrypto.encByte k) := by
        rw [List.getD_eq_getElem _ _ hj]
        exact List.getElem_mem hj
      have hlt : (b.map (EncodingCrypto.encByte k)).getD j 0 < 256 :=
        EncodingCrypto.mem_map_encByte_lt k b _ hmem
      simp only [EncodingCrypto.sealBytes, List.set_cons_succ,
        EncodingCrypto.openBytes]
      rw [if_neg]
      omega

/-- C3 witness: the round-trip, wrong-key failure and tamper detection
at the concrete payload `[3, 7]` with keys 5 and 9 and a mutation of the
ciphertext byte at index 1. -/
theorem encodingCrypto_roundtrip_and_auth_witness :
    EncodingCrypto.openBytes (EncodingCrypto.sealBytes [3, 7] 5) 5 = .ok [3, 7]
    ∧ EncodingCrypto.openBytes (EncodingCrypto.sealBytes [3, 7] 5) 9 =
        .error .authenticationError
    ∧ EncodingCrypto.openBytes ((EncodingCrypto.sealBytes [3, 7] 5).set 1 0) 5 =
        .error .authenticationError :=
  ⟨encodingCrypto_roundtrip_and_auth.1 [3, 7] 5 (by decide),
   encodingCrypto_roundtrip_and_auth.2.1 [3, 7] 5 9 (by decide) (by decide) (by decide),
   encodingCrypto_roundtrip_and_auth.2.2 [3, 7] 5 1 0 (by decide) (by decide) (by decide)⟩

namespace EnrollFace

/-- The floating comparison `collectedFaces.length < 15 * 0.7` of the
source (the product evaluates to 10.5 in IEEE double precision as well)
as a statement over naturals. -/
lemma lt_seventy_percent_iff (n : ℕ) :
    ((n : ℚ) < (targetFrames : ℚ) * (7 / 10)) ↔ 10 * n < 7 * targetFrames := by
  unfold targetFrames
  rw [show ((15 : ℕ) : ℚ) * (7 / 10) = 21 / 2 by norm_num,
    lt_div_iff₀ (by norm_num : (0 : ℚ) < 2)]
  constructor
  · intro h
    have h2 : n * 2 < 21 := by exact_mod_cast h
    omega
  · intro h
    have h2 : n * 2 < 21 := by omega
    exact_mod_cast h2

end EnrollFace

/-- C4: the enrollment run fails with `InsufficientSamples` exactly when
the number of usable samples is strictly below 70% of the requested
capture count (`targetFrames = 15`), and in that case the gallery state
is returned untouched: no identity is committed. -/
theorem enroll_insufficientSamples_iff (hash : List ℚ → String)
    (attempts : List (Option (List ℚ))) (st : Server.DB)
    (pid sid : String) (now : ℕ) (nm : String) :
    ((EnrollFace.enrollSession hash attempts st pid sid now nm).2 =
        some .insufficientSamples ↔
      10 * (EnrollFace.collectedOf attempts).length < 7 * EnrollFace.targetFrames)
    ∧ ((EnrollFace.enrollSession hash attempts st pid sid now nm).2 =
        some .insufficientSamples →
      (EnrollFace.enrollSession hash attempts st pid sid now nm).1 = st) := by
  unfold EnrollFace.enrollSession
  split
  case isTrue h =>
    refine ⟨⟨fun _ => (EnrollFace.lt_seventy_percent_iff _).mp h, fun _ => rfl⟩, fun _ => rfl⟩
  case isFalse h =>
    refine ⟨⟨fun habs => by simp at habs, fun hlt => ?_⟩, fun habs => by simp at habs⟩
    exact absurd ((EnrollFace.lt_seventy_percent_iff _).mpr hlt) h

/-- C4 witness: a run of 15 capture attempts in which none yielded a
face: the session fails with `InsufficientSamples` and the database is
unchanged. -/
theorem enroll_insufficientSamples_iff_witness :
    (EnrollFace.enrollSession (fun _ => (default : String))
        (List.replicate 15 none) ⟨[], []⟩ ("p1") ("s1") 0 ("Alice")).2 =
      some .insufficientSamples
    ∧ (EnrollFace.enrollSession (fun _ => (default : String))
        (List.replicate 15 none) ⟨[], []⟩ ("p1") ("s1") 0 ("Alice")).1 = ⟨[], []⟩ := by
  have h := enroll_insufficientSamples_iff (fun _ => (default : String))
    (List.replicate 15 none) ⟨[], []⟩ ("p1") ("s1") 0 ("Alice")
  have hfail := h.1.mpr (by decide)
  exact ⟨hfail, h.2 hfail⟩

/-- C8: DELETE /api/persons/:id reports success exactly when a person
with that id is present; afterwards no person with that id remains; and
when no such person exists the route answers 404 with the database
unchanged. -/
theorem deletePerson_success_iff_present (st : Server.DB) (pid sid : String) (now : ℕ) :
    ((Server.deletePersonRoute st pid sid now).2 = .success ↔
      st.persons.any (fun p => p.id == pid) = true)
    ∧ (Server.deletePersonRoute st pid sid now).1.persons.any (fun p => p.id == pid) = false
    ∧ (st.persons.any (fun p => p.id == pid) = false →
      (Server.deletePersonRoute st pid sid now).2 = .notFound
      ∧ (Server.deletePersonRoute st pid sid now).1 = st) := by
  unfold Server.deletePersonRoute
  split
  case isTrue h =>
    refine ⟨by simp [h], ?_, ?_⟩
    · simp [List.any_eq_false, List.mem_filter]
    · intro habs
      rw [habs] at h
      simp at h
  case isFalse h =>
    have hall : ∀ p ∈ st.persons, ¬(p.id == pid) = true := by
      intro p hp hpe
      exact h (List.any_eq_true.mpr ⟨p, hp, hpe⟩)
    have hfilter : st.persons.filter (fun p => !(p.id == pid)) = st.persons :=
      List.filter_eq_self.mpr (fun p hp => by simpa using hall p hp)
    refine ⟨by simp [Bool.eq_false_iff.mpr h], ?_, fun _ => ⟨rfl, ?_⟩⟩
    · simp only [hfilter]
      exact Bool.eq_false_iff.mpr h
    · cases st
      simp [hfilter]

/-- C8 witness: with the single person `p1` enrolled, deleting `p1`
succeeds and leaves no person with that id, while deleting the absent id
`p2` answers 404 and leaves the database unchanged. -/
theorem deletePerson_success_iff_present_witness :
    ((Server.deletePersonRoute ⟨[⟨"p1", "Alice", "h1", 0⟩], []⟩ ("p1") ("s1") 1).2 = .success
      ↔ ([⟨"p1", "Alice", "h1", 0⟩] : List Server.Person).any (fun p => p.id == "p1") = true)
    ∧ ((Server.deletePersonRoute ⟨[⟨"p1", "Alice", "h1", 0⟩], []⟩ ("p1") ("s1") 1).1.persons.any
        (fun p => p.id == "p1") = false)
    ∧ ((Server.deletePersonRoute ⟨[⟨"p1", "Alice", "h1", 0⟩], []⟩ ("p2") ("s1") 1).2 = .notFound
      ∧ (Server.deletePersonRoute ⟨[⟨"p1", "Alice", "h1", 0⟩], []⟩ ("p2") ("s1") 1).1 =
        ⟨[⟨"p1", "Alice", "h1", 0⟩], []⟩) :=
  ⟨(deletePerson_success_iff_present ⟨[⟨"p1", "Alice", "h1", 0⟩], []⟩ ("p1") ("s1") 1).1,
   (deletePerson_success_iff_present ⟨[⟨"p1", "Alice", "h1", 0⟩], []⟩ ("p1") ("s1") 1).2.1,
   (deletePerson_success_iff_present ⟨[⟨"p1", "Alice", "h1", 0⟩], []⟩ ("p2") ("s1") 1).2.2
     (by decide)⟩

/-- C9 counterexample: a request in which both fields are present but
`name` is the empty string — JavaScript falsiness makes `!name` true, so
the server answers 400 and creates nothing, refuting the claim that any
request with both fields present succeeds. -/
theorem enroll_present_empty_name_rejected :
    Server.enrollRoute ⟨[], []⟩ (some ("")) (some ("abc")) ("p1") ("s1") 0 =
      (⟨[], []⟩, Server.Response.badRequest)
    ∧ (some ("") : Option String) ≠ none
    ∧ (some ("abc") : Option String) ≠ none := by
  refine ⟨by decide, by simp, by simp⟩

/-- C9 amended: POST /api/enroll answers 400 and leaves the database
untouched when either field is missing or is the empty string (the
JavaScript falsy cases of `!name || !encodingHash`); it enrolls and
answers success with the freshly generated person id when both fields
are present and non-empty; and the stored state is unchanged exactly
when the request is rejected. -/
theorem enrollRoute_validation_spec (st : Server.DB)
    (nameField hashField : Option String) (pid sid : String) (now : ℕ) :
    ((nameField = none ∨ nameField = some ("") ∨ hashField = none ∨ hashField = some ("")) →
      Server.enrollRoute st nameField hashField pid sid now = (st, .badRequest))
    ∧ (∀ n h, nameField = some n → hashField = some h → ¬n = "" → ¬h = "" →
      (Server.enrollRoute st nameField hashField pid sid now).2 = .ok pid
      ∧ (Server.enrollRoute st nameField hashField pid sid now).1.persons =
          st.persons ++ [⟨pid, n, h, now⟩]
      ∧ (Server.enrollRoute st nameField hashField pid sid now).1.sessions =
          st.sessions ++ [⟨sid, some pid, Server.actionEnroll, now⟩])
    ∧ ((Server.enrollRoute st nameField hashField pid sid now).1 = st ↔
      (Server.enrollRoute st nameField hashField pid sid now).2 = .badRequest) := by
  cases nameField with
  | none => exact ⟨fun _ => rfl, by simp, by simp [Server.enrollRoute]⟩
  | some n =>
    cases hashField with
    | none => exact ⟨fun _ => rfl, by simp, by simp [Server.enrollRoute]⟩
    | some h =>
      refine ⟨?_, ?_, ?_⟩
      · rintro (habs | hn0 | habs | hh0)
        · exact absurd habs (by simp)
        · obtain rfl : n = "" := by simpa using hn0
          simp [Server.enrollRoute]
        · exact absurd habs (by simp)
        · obtain rfl : h = "" := by simpa using hh0
          simp [Server.enrollRoute]
      · intro n2 h2 hn2 hh2 hne hhe
        have hn0 : n = n2 := by simpa using hn2
        have hh0 : h = h2 := by simpa using hh2
        subst hn0
        subst hh0
        simp [Server.enrollRoute, hne, hhe]
      · by_cases hcond : (n == "" || h == "") = true
        · simp [Server.enrollRoute, hcond]
        · rw [Bool.not_eq_true] at hcond
          simp only [Server.enrollRoute, hcond, Bool.false_eq_true, if_false]
          constructor
          · intro hEq
            exfalso
            have := congrArg (fun d => d.persons.length) hEq
            simp at this
          · intro hEq
            exact absurd hEq (by simp)

/-- C9 witness: a request whose `encodingHash` is present but empty is
rejected with 400 and leaves the database unchanged, while a well-formed
request (name `Alice`, a non-empty hash) is accepted with the fresh
person id and appends exactly one person and one session row. -/
theorem enrollRoute_validation_spec_witness :
    Server.enrollRoute ⟨[], []⟩ (some ("Alice")) (some ("")) ("p1") ("s1") 0 =
      (⟨[], []⟩, .badRequest)
    ∧ (Server.enrollRoute ⟨[], []⟩ (some ("Alice")) (some ("abc")) ("p1") ("s1") 0).2 =
      .ok ("p1")
    ∧ (Server.enrollRoute ⟨[], []⟩ (some ("Alice")) (some ("abc")) ("p1") ("s1") 0).1.persons =
      [] ++ [⟨"p1", "Alice", "abc", 0⟩]
    ∧ (Server.enrollRoute ⟨[], []⟩ (some ("Alice")) (some ("abc")) ("p1") ("s1") 0).1.sessions =
      [] ++ [⟨"s1", some ("p1"), Server.actionEnroll, 0⟩] :=
  ⟨(enrollRoute_validation_spec ⟨[], []⟩ (some ("Alice")) (some ("")) ("p1") ("s1") 0).1
      (Or.inr (Or.inr (Or.inr rfl))),
   ((enrollRoute_validation_spec ⟨[], []⟩ (some ("Alice")) (some ("abc")) ("p1") ("s1") 0).2.1
      ("Alice") ("abc") rfl rfl (by simp) (by simp)).1,
   ((enrollRoute_validation_spec ⟨[], []⟩ (some ("Alice")) (some ("abc")) ("p1") ("s1") 0).2.1
      ("Alice") ("abc") rfl rfl (by simp) (by simp)).2.1,
   ((enrollRoute_validation_spec ⟨[], []⟩ (some ("Alice")) (some ("abc")) ("p1") ("s1") 0).2.1
      ("Alice") ("abc") rfl rfl (by simp) (by simp)).2.2⟩

/-- C10: GET /api/logs returns at most 100 rows, ordered by timestamp
descending (each row is at least as recent as every later row), and
with no database available it returns the empty list rather than an
error. -/
theorem logsRoute_limit_and_order :
    Server.logsRoute none = []
    ∧ ∀ st : Server.DB,
      (Server.logsRoute (some st)).length ≤ 100
      ∧ (Server.logsRoute (some st)).Pairwise (fun a b => b.timestamp ≤ a.timestamp) := by
  refine ⟨rfl, fun st => ⟨?_, ?_⟩⟩
  · simp only [Server.logsRoute]
    exact List.length_take_le 100 _
  · have hs := List.sorted_insertionSort Server.byTimestampDesc st.sessions
    have hmap : ((List.insertionSort Server.byTimestampDesc st.sessions).map
        (fun s => (⟨s.timestamp, s.action, Server.lookupName st.persons s.personId⟩ :
          Server.LogRow))).Pairwise
        (fun a b => b.timestamp ≤ a.timestamp) :=
      List.pairwise_map.mpr hs
    exact List.Pairwise.sublist (List.take_sublist _ _) hmap

namespace EnrollFace

/-- The accumulation loop keeps the 128-coordinate shape. -/
lemma length_foldAdd (l : List (List ℚ)) (acc : List ℚ) (hacc : acc.length = 128)
    (hl : ∀ s ∈ l, s.length = 128) :
    (l.foldl (fun a d => List.zipWith (fun x y => x + y) a d) acc).length = 128 := by
  induction l generalizing acc with
  | nil => simpa using hacc
  | cons s t ih =>
    rw [List.foldl_cons]
    refine ih _ ?_ (fun s' hs' => hl s' (List.mem_cons_of_mem _ hs'))
    rw [List.length_zipWith, hacc, hl s (List.mem_cons_self _ _)]
    exact min_self 128

/-- Coordinate `j` of the accumulation loop is the starting value plus
the sum of coordinate `j` over the descriptors. -/
lemma getD_foldAdd (l : List (List ℚ)) (acc : List ℚ) (j : ℕ) (hacc : acc.length = 128)
    (hl : ∀ s ∈ l, s.length = 128) (hj : j < 128) :
    (l.foldl (fun a d => List.zipWith (fun x y => x + y) a d) acc).getD j 0 =
      acc.getD j 0 + (l.map (fun s => s.getD j 0)).sum := by
  induction l generalizing acc with
  | nil => simp
  | cons s t ih =>
    have hacc' : j < acc.length := by omega
    have hs' : j < s.length := by
      rw [hl s (List.mem_cons_self _ _)]
      exact hj
    rw [List.foldl_cons,
      ih _ (by rw [List.length_zipWith, hacc, hl s (List.mem_cons_self _ _)]; exact min_self 128)
        (fun s2 hs2 => hl s2 (List.mem_cons_of_mem _ hs2))]
    have hz : (List.zipWith (fun x y => x + y) acc s).getD j 0 = acc.getD j 0 + s.getD j 0 := by
      rw [List.getD_eq_getElem?_getD, List.getElem?_zipWith,
        List.getElem?_eq_getElem hacc', List.getElem?_eq_getElem hs',
        List.getD_eq_getElem _ _ hacc', List.getD_eq_getElem _ _ hs']
      rfl
    rw [hz, List.map_cons, List.sum_cons]
    ring

/-- The coordinate sums have 128 coordinates. -/
lemma length_sumDescriptors (samples : List (List ℚ)) (hl : ∀ s ∈ samples, s.length = 128) :
    (sumDescriptors samples).length = 128 :=
  length_foldAdd samples _ (by simp) hl

/-- The averaged descriptor has 128 coordinates. -/
lemma length_avgDescriptor (samples : List (List ℚ)) (hl : ∀ s ∈ samples, s.length = 128) :
    (avgDescriptor samples).length = 128 := by
  unfold avgDescriptor
  rw [List.length_map, length_sumDescriptors samples hl]

/-- Coordinate `j` of the averaged descriptor is the arithmetic mean of
coordinate `j` over the samples. -/
lemma avgDescriptor_getD (samples : List (List ℚ)) (hl : ∀ s ∈ samples, s.length = 128)
    (j : ℕ) (hj : j < 128) :
    (avgDescriptor samples).getD j 0 =
      (samples.map (fun s => s.getD j 0)).sum / (samples.length : ℚ) := by
  have hlen : (sumDescriptors samples).length = 128 := length_sumDescriptors samples hl
  have hjl : j < (sumDescriptors samples).length := by omega
  have hsum : (sumDescriptors samples).getD j 0 = (samples.map (fun s => s.getD j 0)).sum := by
    have h0 := getD_foldAdd samples (List.replicate 128 0) j (by simp) hl hj
    have hrep : (List.replicate 128 (0 : ℚ)).getD j 0 = 0 := by
      rw [List.getD_eq_getElem?_getD, List.getElem?_replicate]
      split <;> rfl
    rw [sumDescriptors, h0, hrep, zero_add]
  unfold avgDescriptor
  rw [List.getD_eq_getElem?_getD, List.getElem?_map, List.getElem?_eq_getElem hjl]
  rw [show (sumDescriptors samples)[j] = (sumDescriptors samples).getD j 0 from
    (List.getD_eq_getElem _ _ hjl).symm, hsum]
  rfl

end EnrollFace

set_option linter.unusedVariables false in
/-- C5: for a non-empty list of usable samples, each of the 128
coordinates of the canonical (averaged) encoding equals the sum of that
coordinate over the samples divided by the number of samples. -/
theorem avgDescriptor_coordinate_mean (samples : List (List ℚ)) (hne : samples ≠ [])
    (hl : ∀ s ∈ samples, s.length = 128) (j : ℕ) (hj : j < 128) :
    (EnrollFace.avgDescriptor samples).getD j 0 =
      (samples.map (fun s => s.getD j 0)).sum / (samples.length : ℚ) :=
  EnrollFace.avgDescriptor_getD samples hl j hj

/-- C5 witness: one sample whose coordinates are all 2 — coordinate 0 of
the average equals the coordinate sum divided by the sample count. -/
theorem avgDescriptor_coordinate_mean_witness :
    ([List.replicate 128 (2 : ℚ)] ≠ [])
    ∧ (∀ s ∈ [List.replicate 128 (2 : ℚ)], s.length = 128)
    ∧ (0 < 128)
    ∧ (EnrollFace.avgDescriptor [List.replicate 128 (2 : ℚ)]).getD 0 0 =
      (([List.replicate 128 (2 : ℚ)]).map (fun s => s.getD 0 0)).sum /
        (([List.replicate 128 (2 : ℚ)]).length : ℚ) :=
  ⟨by simp, by simp, by norm_num,
   avgDescriptor_coordinate_mean [List.replicate 128 (2 : ℚ)] (by simp) (by simp) 0 (by norm_num)⟩

/-- C6: the averaged descriptor is invariant under permutation of the
samples — over the rationals the mean is exactly order-independent. -/
theorem avgDescriptor_perm_invariant (l l2 : List (List ℚ)) (hp : l.Perm l2)
    (hl : ∀ s ∈ l, s.length = 128) :
    EnrollFace.avgDescriptor l = EnrollFace.avgDescriptor l2 := by
  have hl2 : ∀ s ∈ l2, s.length = 128 := fun s hs => hl s (hp.mem_iff.mpr hs)
  apply List.ext_getElem
  · rw [EnrollFace.length_avgDescriptor l hl, EnrollFace.length_avgDescriptor l2 hl2]
  · intro n h1 h2
    have hn : n < 128 := by
      rw [EnrollFace.length_avgDescriptor l hl] at h1
      exact h1
    rw [← List.getD_eq_getElem _ 0 h1, ← List.getD_eq_getElem _ 0 h2,
      EnrollFace.avgDescriptor_getD l hl n hn, EnrollFace.avgDescriptor_getD l2 hl2 n hn,
      hp.length_eq, (hp.map (fun s => s.getD n 0)).sum_eq]

/-- C6 witness: swapping two samples (all-1s and all-2s) leaves the
averaged descriptor unchanged. -/
theorem avgDescriptor_perm_invariant_witness :
    ([List.replicate 128 (1 : ℚ), List.replicate 128 (2 : ℚ)].Perm
      [List.replicate 128 (2 : ℚ), List.replicate 128 (1 : ℚ)])
    ∧ EnrollFace.avgDescriptor [List.replicate 128 (1 : ℚ), List.replicate 128 (2 : ℚ)] =
      EnrollFace.avgDescriptor [List.replicate 128 (2 : ℚ), List.replicate 128 (1 : ℚ)] :=
  ⟨List.Perm.swap _ _ _,
   avgDescriptor_perm_invariant _ _ (List.Perm.swap _ _ _) (by simp)⟩
